import Mathlib

/-!
# POD quality-inspection pipeline — verification model

A shallow embedding of the two core functions of `app.py`:

* `process_file` (the Sampler): drop the non-essential `199_pathtime`
  column, drop exact-duplicate rows keeping the first occurrence
  (`DataFrame.drop_duplicates`), remove rows whose `service_number`
  rendered as text starts with `"550"`, keep rows with `state == 203`,
  then group by `service_number` (pandas `groupby` sorts the group keys)
  and from each group draw `min(30, len(group))` rows without
  replacement with `random_state=42`.

* `generate_reports` (the Aggregator): group the annotated table by the
  `DSP` column (pandas `groupby` sorts keys and silently drops null
  keys), compute `total`, `qualified_count` and
  `rate = round(qualified_count / total * 100, 2)` per group, and emit
  either the all-qualified summary or the summary naming the service
  with the most `Quality == "No"` rows (`Series.idxmax`: first index of
  the maximum, over the key-sorted per-driver counts) and the most
  common `Reason` among that service's rows
  (`collections.Counter.most_common`: maximal count, ties broken by
  first insertion, i.e. first occurrence in row order).

Tables are lists of structured rows; machine floats of the Python code
are modelled by rationals (all numeric claims here are exercised away
from representation edge cases); the seeded numpy generator behind
`DataFrame.sample` is modelled by an explicit deterministic
linear-congruential shuffle — every claim about sampling depends only
on determinism and on the draw being a without-replacement selection,
never on which pseudorandom indices the library produces.
-/

namespace POD

/-- A raw input row: `service_number`, `state`, `tno`, the optional
non-essential `199_pathtime` column, and all remaining passthrough
columns collapsed into `rest`. -/
structure RawRow where
  service_number : String
  state : Int
  tno : String
  pathtime : Option String
  rest : List String
deriving DecidableEq

/-- A row after `df.drop(columns=["199_pathtime"], errors="ignore")`. -/
structure Row where
  service_number : String
  state : Int
  tno : String
  rest : List String
deriving DecidableEq

/-- The column drop of `app.py` line 31. -/
def dropPathtime (r : RawRow) : Row :=
  ⟨r.service_number, r.state, r.tno, r.rest⟩

/-- Accumulator-based duplicate removal keeping the first occurrence,
the semantics of `DataFrame.drop_duplicates()` (line 32). -/
def dropDupAux {α : Type} [DecidableEq α] (seen : List α) : List α → List α
  | [] => []
  | a :: l => if a ∈ seen then dropDupAux seen l else a :: dropDupAux (a :: seen) l

/-- `drop_duplicates` with no prior context: keep the first occurrence
of every value.  Also reused for the first-occurrence ordering of
distinct keys in a Python `dict` / `collections.Counter`. -/
def dedupFirst {α : Type} [DecidableEq α] (l : List α) : List α :=
  dropDupAux [] l

/-- One step of the 64-bit linear congruential generator standing in
for numpy's seeded pseudorandom stream (`random_state=42`). -/
def lcg (s : Nat) : Nat :=
  (6364136223846793005 * s + 1442695040888963407) % 18446744073709551616

/-- Deterministic shuffle: repeatedly pick the element at position
`state mod length` and recurse on the rest with the next generator
state.  Fuel is the list length; with enough fuel the result is a
permutation of the input.  This is the model of the without-replacement
draw done inside `DataFrame.sample(n, random_state=42)`. -/
def shuffleAux {α : Type} [DecidableEq α] : Nat → Nat → List α → List α
  | _, _, [] => []
  | _, 0, _ :: _ => []
  | s, n + 1, a :: l =>
    let x := (a :: l).get ⟨s % (a :: l).length, Nat.mod_lt _ (Nat.succ_pos _)⟩
    x :: shuffleAux (lcg s) n ((a :: l).erase x)

/-- `x.sample(n=min(30, len(x)), random_state=42)` on one group
(line 38): a fresh seed-42 draw of `min(30, len(x))` distinct rows. -/
def sampleGroup (g : List Row) : List Row :=
  (shuffleAux 42 g.length g).take (min 30 g.length)

/-- Lexicographic strict comparison of char lists by code point, the
order Python uses on strings (and pandas on string group keys). -/
def strLtb : List Char → List Char → Bool
  | [], [] => false
  | [], _ :: _ => true
  | _ :: _, [] => false
  | a :: as, b :: bs =>
    if a.toNat < b.toNat then true
    else if b.toNat < a.toNat then false
    else strLtb as bs

/-- Strict lexicographic order on strings. -/
def strLt (a b : String) : Bool :=
  strLtb a.data b.data

/-- Reflexive lexicographic order on strings. -/
def strLe (a b : String) : Bool :=
  !(strLt b a)

/-- The ordering proposition used to sort pandas group keys. -/
def sLe (a b : String) : Prop :=
  strLe a b = true

instance : DecidableRel sLe :=
  fun _ _ => inferInstanceAs (Decidable (_ = true))

/-- The rows of one `groupby("service_number")` group. -/
def groupOf (df : List Row) (s : String) : List Row :=
  df.filter (fun r => r.service_number == s)

/-- The group keys of `groupby("service_number")`: the distinct service
numbers, in sorted order (pandas `groupby` sorts keys by default). -/
def serviceKeys (df : List Row) : List String :=
  List.insertionSort sLe (dedupFirst (df.map (fun r => r.service_number)))

/-- Executable model of Python `str.startswith`: character-list
comparison of the pattern against the front of the string. -/
def textStartsWith (s pat : String) : Bool :=
  List.isPrefixOf pat.data s.data

/-- Lines 31–34 of `app.py`: column drop, duplicate removal, exclusion
of service numbers with text form starting in `"550"`, restriction to
status 203. -/
def eligible (raw : List RawRow) : List Row :=
  ((dedupFirst (raw.map dropPathtime)).filter
      (fun r => !(textStartsWith r.service_number ("550")))).filter
    (fun r => r.state == 203)

/-- Lines 29–40 of `app.py`: the full Sampler.  Groups are emitted in
sorted-key order and each contributes its seed-42 draw. -/
def process_file (raw : List RawRow) : List Row :=
  (serviceKeys (eligible raw)).flatMap (fun s => sampleGroup (groupOf (eligible raw) s))

/-- An annotated record, the row shape `user_input_interface` builds:
tracking number, `DSP` (the distributor; `none` models a pandas null),
date, Quality (the strings `"Yes"` or `"No"`), a human-readable Reason
label, and the `Driver id` column, which holds the service number. -/
structure ARow where
  tno : String
  dsp : Option String
  date : String
  quality : String
  reason : String
  driver_id : String
deriving DecidableEq

/-- An annotated table; `hasDSP = false` models the `DSP` column being
absent, in which case `final_df.groupby("DSP")` raises a `KeyError`. -/
structure AnnotatedTable where
  hasDSP : Bool
  rows : List ARow

/-- The two summary shapes emitted per distributor group (the bilingual
f-strings of lines 92–93 and 101–102 are injective in the fields shown
here, so a summary value records which template fired and with which
parameters). -/
inductive Summary where
  | allQualified (dsp : String) (total : Nat)
  | withFailures (dsp : String) (total : Nat) (rate : ℚ)
      (mainService : String) (mainReason : String)
deriving DecidableEq

/-- `sum(group["Quality"] == "Yes")` of line 88. -/
def qualifiedCount (g : List ARow) : Nat :=
  (g.filter (fun r => r.quality == "Yes")).length

/-- `round(qualified_count / total * 100, 2)` scaled by 100: the
integer `round(qc / total * 10000)`, computed as the floor of
`(20000 * qc + total) / (2 * total)` in exact integer arithmetic
(round half up; Python rounds exact two-decimal halves to even, a
difference no claim here exercises and the source never hits away from
float ties). -/
def rateNum (qc total : Nat) : Nat :=
  (20000 * qc + total) / (2 * total)

/-- The pass rate of line 89, as an exact rational with two-decimal
rounding: `round(qualified_count / total * 100, 2)`. -/
def rateOf (g : List ARow) : ℚ :=
  mkRat (rateNum (qualifiedCount g) g.length) 100

/-- The rows of one `groupby("Driver id")` group inside a DSP group. -/
def driverRows (g : List ARow) (d : String) : List ARow :=
  g.filter (fun r => r.driver_id == d)

/-- Per-driver count of `Quality == "No"` rows, the value of the
`service_rates` series of lines 95–97. -/
def noCount (g : List ARow) (d : String) : Nat :=
  ((driverRows g d).filter (fun r => r.quality == "No")).length

/-- The index of the `service_rates` series: distinct `Driver id`
values in sorted order (pandas `groupby` sorts keys). -/
def driverKeys (g : List ARow) : List String :=
  List.insertionSort sLe (dedupFirst (g.map (fun r => r.driver_id)))

/-- `Series.idxmax` / stable maximum: the first key, in list order,
whose value is maximal.  Also the model of
`Counter(xs).most_common(1)[0][0]` when applied to first-occurrence
key order, since `most_common` sorts stably by descending count. -/
def idxmax (f : String → Nat) : List String → Option String
  | [] => none
  | k :: ks =>
    match idxmax f ks with
    | none => some k
    | some m => if f k < f m then some m else some k

/-- `service_rates.idxmax()` of line 98. -/
def mainServiceOf (g : List ARow) : String :=
  (idxmax (noCount g) (driverKeys g)).getD ("")

/-- `group[group["Driver id"] == main_service]["Reason"]` of line 99:
the Reason column of all rows of the offending service, qualified rows
included. -/
def reasonsOf (g : List ARow) : List String :=
  (driverRows g (mainServiceOf g)).map (fun r => r.reason)

/-- `Counter(xs).most_common(1)[0][0]` of line 100: the value with the
maximal count; ties go to the value first inserted into the counter,
i.e. the one occurring first in `xs`. -/
def mostCommon (xs : List String) : Option String :=
  idxmax (fun v => xs.count v) (dedupFirst xs)

def mainReasonOf (g : List ARow) : String :=
  (mostCommon (reasonsOf g)).getD ("")

/-- Lines 87–102: the per-distributor summary. -/
def summarize (d : String) (g : List ARow) : Summary :=
  if rateOf g = 100 then Summary.allQualified d g.length
  else Summary.withFailures d g.length (rateOf g) (mainServiceOf g) (mainReasonOf g)

/-- The keys of `final_df.groupby("DSP")`: distinct non-null DSP
values in sorted order (pandas sorts keys and silently drops null
keys). -/
def dspKeys (t : List ARow) : List String :=
  List.insertionSort sLe (dedupFirst (t.filterMap (fun r => r.dsp)))

/-- The rows of one DSP group. -/
def dspRows (t : List ARow) (d : String) : List ARow :=
  t.filter (fun r => r.dsp == some d)

instance {ε α : Type} [DecidableEq ε] [DecidableEq α] : DecidableEq (Except ε α) :=
  fun x y =>
    match x, y with
    | Except.ok a, Except.ok b =>
        if h : a = b then Decidable.isTrue (h ▸ rfl)
        else Decidable.isFalse (fun hc => h (Except.ok.inj hc))
    | Except.error a, Except.error b =>
        if h : a = b then Decidable.isTrue (h ▸ rfl)
        else Decidable.isFalse (fun hc => h (Except.error.inj hc))
    | Except.ok _, Except.error _ => Decidable.isFalse (fun hc => Except.noConfusion hc)
    | Except.error _, Except.ok _ => Decidable.isFalse (fun hc => Except.noConfusion hc)

/-- Lines 81–125 of `app.py` (`generate_reports`), modulo the Excel
and zip serialisation collaborators: the ordered summary list and the
per-distributor export tables, or the `KeyError` pandas raises at
line 82 when the `DSP` column is missing. -/
def generate_reports (t : AnnotatedTable) :
    Except String (List Summary × List (String × List ARow)) :=
  if t.hasDSP then
    Except.ok ((dspKeys t.rows).map (fun d => summarize d (dspRows t.rows d)),
      (dspKeys t.rows).map (fun d => (d ++ ("_report.xlsx"), dspRows t.rows d)))
  else
    Except.error ("KeyError: DSP")

/-- `m` is the first element of `keys` attaining the maximum of `f`:
everything before it is strictly smaller, everything after is no
larger. -/
def firstArgmax (f : String → Nat) (keys : List String) (m : String) : Prop :=
  ∃ pre suf, keys = pre ++ m :: suf
    ∧ (∀ k ∈ pre, f k < f m) ∧ (∀ k ∈ suf, f k ≤ f m)

/-- The distributor a summary is about. -/
def summaryDSP : Summary → String
  | Summary.allQualified d _ => d
  | Summary.withFailures d _ _ _ _ => d

/-- A one-row raw table used to instantiate the sampler theorems. -/
def sampleRaw : List RawRow :=
  [⟨"A1", 203, "t1", none, []⟩]

/-- The row `sampleRaw` contributes after the column drop. -/
def sampleRow : Row :=
  ⟨"A1", 203, "t1", []⟩

/-- Ten annotated rows of which eight are qualified: the group of the
spec's rate example. -/
def rate10Group : List ARow :=
  [⟨"t1", some "D", "2026-01-01", "Yes", "Qualified", "S1"⟩,
   ⟨"t2", some "D", "2026-01-01", "Yes", "Qualified", "S1"⟩,
   ⟨"t3", some "D", "2026-01-01", "Yes", "Qualified", "S1"⟩,
   ⟨"t4", some "D", "2026-01-01", "Yes", "Qualified", "S1"⟩,
   ⟨"t5", some "D", "2026-01-01", "Yes", "Qualified", "S1"⟩,
   ⟨"t6", some "D", "2026-01-01", "Yes", "Qualified", "S1"⟩,
   ⟨"t7", some "D", "2026-01-01", "Yes", "Qualified", "S2"⟩,
   ⟨"t8", some "D", "2026-01-01", "Yes", "Qualified", "S2"⟩,
   ⟨"t9", some "D", "2026-01-01", "No", "Wrong Address", "S2"⟩,
   ⟨"t10", some "D", "2026-01-01", "No", "Wrong Address", "S2"⟩]

/-- A fully qualified two-row group. -/
def allYesGroup : List ARow :=
  [⟨"t1", some "D", "2026-01-01", "Yes", "Qualified", "S1"⟩,
   ⟨"t2", some "D", "2026-01-01", "Yes", "Qualified", "S2"⟩]

/-- Two failing rows for two distinct drivers; the driver appearing
first in row order is `"B"`, but the drivers are tied at one failure
each, so `idxmax` over the key-sorted series picks `"A"`. -/
def tieGroup : List ARow :=
  [⟨"t1", some "D", "2026-01-01", "No", "Wrong Address", "B"⟩,
   ⟨"t2", some "D", "2026-01-01", "No", "No POD", "A"⟩]

/-- Two all-qualified rows whose distributors appear in the order
`"b"` then `"a"`: first-appearance order and sorted order disagree. -/
def orderRows : List ARow :=
  [⟨"t1", some "b", "2026-01-01", "Yes", "Qualified", "S1"⟩,
   ⟨"t2", some "a", "2026-01-01", "Yes", "Qualified", "S2"⟩]

/-- One row with a null distributor next to one with distributor
`"A"`. -/
def nullDspRows : List ARow :=
  [⟨"t1", none, "2026-01-01", "Yes", "Qualified", "S1"⟩,
   ⟨"t2", some "A", "2026-01-01", "Yes", "Qualified", "S2"⟩]

/-- A group whose offending driver `"D1"` has two qualified rows and
one failing row, so the Reason multiset of its rows is dominated by
the literal label `"Qualified"`. -/
def qualifiedReasonGroup : List ARow :=
  [⟨"t1", some "D", "2026-01-01", "Yes", "Qualified", "D1"⟩,
   ⟨"t2", some "D", "2026-01-01", "Yes", "Qualified", "D1"⟩,
   ⟨"t3", some "D", "2026-01-01", "No", "Wrong Address", "D1"⟩,
   ⟨"t4", some "D", "2026-01-01", "Yes", "Qualified", "D2"⟩]

theorem mem_of_mem_dropDupAux {α : Type} [DecidableEq α] {a : α} :
    ∀ (seen l : List α), a ∈ dropDupAux seen l → a ∈ l ∧ a ∉ seen := by
  intro seen l
  induction l generalizing seen with
  | nil => intro h; simp [dropDupAux] at h
  | cons b t ih =>
    intro h
    simp only [dropDupAux] at h
    by_cases hb : b ∈ seen
    · rw [if_pos hb] at h
      rcases ih seen h with ⟨h1, h2⟩
      exact ⟨List.mem_cons_of_mem _ h1, h2⟩
    · rw [if_neg hb] at h
      rcases List.mem_cons.mp h with h1 | h1
      · subst h1; exact ⟨List.mem_cons_self _ _, hb⟩
      · rcases ih (b :: seen) h1 with ⟨h2, h3⟩
        refine ⟨List.mem_cons_of_mem _ h2, fun hc => h3 (List.mem_cons_of_mem _ hc)⟩

theorem mem_dropDupAux_of_mem {α : Type} [DecidableEq α] {a : α} :
    ∀ (seen l : List α), a ∈ l → a ∉ seen → a ∈ dropDupAux seen l := by
  intro seen l
  induction l generalizing seen with
  | nil => intro h; simp at h
  | cons b t ih =>
    intro h hs
    simp only [dropDupAux]
    by_cases hb : b ∈ seen
    · rw [if_pos hb]
      rcases List.mem_cons.mp h with h1 | h1
      · subst h1; exact absurd hb hs
      · exact ih seen h1 hs
    · rw [if_neg hb]
      rcases List.mem_cons.mp h with h1 | h1
      · subst h1; exact List.mem_cons_self _ _
      · by_cases hab : a = b
        · subst hab; exact List.mem_cons_self _ _
        · refine List.mem_cons_of_mem _ (ih (b :: seen) h1 ?_)
          intro hc
          rcases List.mem_cons.mp hc with h2 | h2
          · exact hab h2
          · exact hs h2

theorem mem_dedupFirst {α : Type} [DecidableEq α] {a : α} (l : List α) :
    a ∈ dedupFirst l ↔ a ∈ l := by
  constructor
  · intro h; exact (mem_of_mem_dropDupAux [] l h).1
  · intro h; exact mem_dropDupAux_of_mem [] l h (by simp)

theorem dropDupAux_nodup {α : Type} [DecidableEq α] :
    ∀ (seen l : List α), (dropDupAux seen l).Nodup := by
  intro seen l
  induction l generalizing seen with
  | nil => simp [dropDupAux]
  | cons b t ih =>
    simp only [dropDupAux]
    by_cases hb : b ∈ seen
    · rw [if_pos hb]; exact ih seen
    · rw [if_neg hb]
      refine List.nodup_cons.mpr ⟨?_, ih (b :: seen)⟩
      intro hc
      exact (mem_of_mem_dropDupAux _ _ hc).2 (List.mem_cons_self _ _)

theorem dedupFirst_nodup {α : Type} [DecidableEq α] (l : List α) :
    (dedupFirst l).Nodup :=
  dropDupAux_nodup [] l

theorem dedupFirst_sublist {α : Type} [DecidableEq α] :
    ∀ (seen l : List α), List.Sublist (dropDupAux seen l) l := by
  intro seen l
  induction l generalizing seen with
  | nil => simp [dropDupAux]
  | cons b t ih =>
    simp only [dropDupAux]
    by_cases hb : b ∈ seen
    · rw [if_pos hb]; exact (ih seen).cons b
    · rw [if_neg hb]; exact (ih (b :: seen)).cons₂ b

theorem shuffleAux_perm {α : Type} [DecidableEq α] :
    ∀ (n s : Nat) (l : List α), l.length ≤ n → (shuffleAux s n l).Perm l := by
  intro n
  induction n with
  | zero =>
    intro s l h
    cases l with
    | nil => simp [shuffleAux]
    | cons a t => simp at h
  | succ m ih =>
    intro s l h
    cases l with
    | nil => simp [shuffleAux]
    | cons a t =>
      simp only [shuffleAux]
      have hmem : (a :: t).get ⟨s % (a :: t).length, Nat.mod_lt _ (Nat.succ_pos _)⟩ ∈ a :: t :=
        List.get_mem _ _ _
      have herase :
          ((a :: t).erase
            ((a :: t).get ⟨s % (a :: t).length, Nat.mod_lt _ (Nat.succ_pos _)⟩)).length ≤ m := by
        rw [List.length_erase_of_mem hmem]
        simpa using Nat.le_of_succ_le_succ (by simpa using h)
      have hperm := ih (lcg s) _ herase
      exact (hperm.cons _).trans (List.perm_cons_erase hmem).symm

theorem sampleGroup_subperm (g : List Row) : List.Subperm (sampleGroup g) g :=
  ((List.take_sublist _ _).subperm).trans (shuffleAux_perm _ _ _ le_rfl).subperm

theorem sampleGroup_length (g : List Row) :
    (sampleGroup g).length = min 30 g.length := by
  have hlen : (shuffleAux 42 g.length g).length = g.length :=
    (shuffleAux_perm _ _ _ le_rfl).length_eq
  simp only [sampleGroup, List.length_take, hlen]
  exact Nat.min_eq_left (Nat.min_le_right 30 g.length)

theorem strLtb_asymm :
    ∀ as bs : List Char, strLtb as bs = true → strLtb bs as = false := by
  intro as
  induction as with
  | nil =>
    intro bs h
    cases bs with
    | nil => simp [strLtb] at h
    | cons b t => simp [strLtb]
  | cons a as ih =>
    intro bs h
    cases bs with
    | nil => simp [strLtb] at h
    | cons b t =>
      simp only [strLtb] at h ⊢
      by_cases hab : a.toNat < b.toNat
      · have hba : ¬ b.toNat < a.toNat := Nat.lt_asymm hab
        simp [hab, hba]
      · by_cases hba : b.toNat < a.toNat
        · simp [hab, hba] at h
        · simp only [if_neg hab, if_neg hba] at h
          simp [hab, hba, ih t h]

theorem strLtb_trans :
    ∀ as bs cs : List Char, strLtb as bs = true → strLtb bs cs = true →
      strLtb as cs = true := by
  intro as
  induction as with
  | nil =>
    intro bs cs h1 h2
    cases bs with
    | nil => simp [strLtb] at h1
    | cons b t =>
      cases cs with
      | nil => simp [strLtb] at h2
      | cons c u => simp [strLtb]
  | cons a as ih =>
    intro bs cs h1 h2
    cases bs with
    | nil => simp [strLtb] at h1
    | cons b t =>
      cases cs with
      | nil => simp [strLtb] at h2
      | cons c u =>
        simp only [strLtb] at h1 h2 ⊢
        by_cases hab : a.toNat < b.toNat
        · by_cases hbc : b.toNat < c.toNat
          · simp [Nat.lt_trans hab hbc]
          · by_cases hcb : c.toNat < b.toNat
            · simp [hbc, hcb] at h2
            · have hac : a.toNat < c.toNat := by omega
              simp [hac]
        · by_cases hba : b.toNat < a.toNat
          · simp [hab, hba] at h1
          · simp only [if_neg hab, if_neg hba] at h1
            by_cases hbc : b.toNat < c.toNat
            · have hac : a.toNat < c.toNat := by omega
              simp [hac]
            · by_cases hcb : c.toNat < b.toNat
              · simp [hbc, hcb] at h2
              · simp only [if_neg hbc, if_neg hcb] at h2
                have hac : ¬ a.toNat < c.toNat := by omega
                have hca : ¬ c.toNat < a.toNat := by omega
                simp [hac, hca, ih t u h1 h2]

theorem strLtb_eq_of_not :
    ∀ as bs : List Char, strLtb as bs = false → strLtb bs as = false → as = bs := by
  intro as
  induction as with
  | nil =>
    intro bs h1 _
    cases bs with
    | nil => rfl
    | cons b t => simp [strLtb] at h1
  | cons a as ih =>
    intro bs h1 h2
    cases bs with
    | nil => simp [strLtb] at h2
    | cons b t =>
      simp only [strLtb] at h1 h2
      by_cases hab : a.toNat < b.toNat
      · simp [hab] at h1
      · by_cases hba : b.toNat < a.toNat
        · simp [hab, hba] at h2
        · simp only [if_neg hab, if_neg hba] at h1 h2
          have hv : a = b := by
            apply Char.eq_of_val_eq
            apply UInt32.ext
            show a.toNat = b.toNat
            omega
          rw [hv, ih t h1 h2]

theorem sLe_total : ∀ a b : String, sLe a b ∨ sLe b a := by
  intro a b
  unfold sLe strLe strLt
  by_cases h : strLtb b.data a.data = true
  · right
    simp [strLtb_asymm _ _ h]
  · left
    simp [Bool.not_eq_true _ ▸ h]

theorem sLe_trans : ∀ a b c : String, sLe a b → sLe b c → sLe a c := by
  intro a b c h1 h2
  unfold sLe strLe strLt at h1 h2 ⊢
  rw [Bool.not_eq_true'] at h1 h2 ⊢
  by_cases hca : strLtb c.data a.data = true
  · by_cases hbc : strLtb b.data c.data = true
    · rw [strLtb_trans _ _ _ hbc hca] at h1
      simp at h1
    · have heq := strLtb_eq_of_not _ _ (Bool.not_eq_true _ ▸ hbc) h2
      rw [← heq] at hca
      rw [hca] at h1
      simp at h1
  · exact Bool.not_eq_true _ ▸ hca

theorem subperm_append {α : Type} {a b c d : List α}
    (h1 : List.Subperm a b) (h2 : List.Subperm c d) :
    List.Subperm (a ++ c) (b ++ d) :=
  ((List.subperm_append_right c).mpr h1).trans ((List.subperm_append_left b).mpr h2)

theorem flatMap_subperm {α β : Type} (f g : β → List α) :
    ∀ l : List β, (∀ b ∈ l, List.Subperm (f b) (g b)) →
      List.Subperm (l.flatMap f) (l.flatMap g) := by
  intro l
  induction l with
  | nil => intro _; simp
  | cons b t ih =>
    intro h
    rw [List.flatMap_cons, List.flatMap_cons]
    exact subperm_append (h b (List.mem_cons_self _ _))
      (ih fun x hx => h x (List.mem_cons_of_mem _ hx))

theorem filter_and_ne (df : List Row) {s k : String} (h : k ≠ s) :
    (df.filter (fun r => !(r.service_number == s))).filter (fun r => r.service_number == k)
      = df.filter (fun r => r.service_number == k) := by
  rw [List.filter_filter]
  apply List.filter_congr
  intro r _
  by_cases hk : r.service_number = k
  · have hs : ¬ r.service_number = s := by rw [hk]; exact h
    simp [hk, hs, h]
  · simp [hk]

theorem flatMap_groupOf_perm :
    ∀ (keys : List String) (df : List Row), keys.Nodup →
      (∀ r ∈ df, r.service_number ∈ keys) →
      (keys.flatMap (fun s => groupOf df s)).Perm df := by
  intro keys
  induction keys with
  | nil =>
    intro df _ hcov
    have hdf : df = [] := by
      cases df with
      | nil => rfl
      | cons r t => exact absurd (hcov r (List.mem_cons_self _ _)) (by simp)
    simp [hdf]
  | cons s ks ih =>
    intro df hnd hcov
    rw [List.flatMap_cons]
    have hnd' : ks.Nodup := (List.nodup_cons.mp hnd).2
    have htail : ∀ ks' : List String, (∀ k ∈ ks', k ≠ s) →
        ks'.flatMap (fun k => groupOf df k)
          = ks'.flatMap (fun k => groupOf (df.filter (fun r => !(r.service_number == s))) k) := by
      intro ks'
      induction ks' with
      | nil => intro _; rfl
      | cons k t iht =>
        intro hne
        have hk : k ≠ s := hne k (List.mem_cons_self _ _)
        rw [List.flatMap_cons, List.flatMap_cons,
          iht fun x hx => hne x (List.mem_cons_of_mem _ hx),
          show groupOf (df.filter (fun r => !(r.service_number == s))) k
            = groupOf df k from filter_and_ne df hk]
    have hks : ∀ k ∈ ks, k ≠ s := by
      intro k hk he
      exact (List.nodup_cons.mp hnd).1 (he ▸ hk)
    rw [htail ks hks]
    have hcov' : ∀ r ∈ df.filter (fun r => !(r.service_number == s)),
        r.service_number ∈ ks := by
      intro r hr
      have hmem := List.mem_of_mem_filter hr
      have hne : ¬ (r.service_number == s) = true := by
        have := List.of_mem_filter hr
        simpa using this
      rcases List.mem_cons.mp (hcov r hmem) with h1 | h1
      · exact absurd (beq_iff_eq.mpr h1) hne
      · exact h1
    have hperm := ih (df.filter (fun r => !(r.service_number == s))) hnd' hcov'
    have happ := hperm.append_left (groupOf df s)
    refine happ.trans ?_
    exact List.filter_append_perm (fun r => r.service_number == s) df

theorem serviceKeys_nodup (df : List Row) : (serviceKeys df).Nodup :=
  ((List.perm_insertionSort _ _).nodup_iff).mpr (dedupFirst_nodup _)

theorem mem_serviceKeys {df : List Row} {s : String} :
    s ∈ serviceKeys df ↔ ∃ r ∈ df, r.service_number = s := by
  unfold serviceKeys
  rw [(List.perm_insertionSort _ _).mem_iff, mem_dedupFirst, List.mem_map]

theorem process_file_subperm (raw : List RawRow) :
    List.Subperm (process_file raw) (eligible raw) := by
  have h1 : List.Subperm (process_file raw)
      ((serviceKeys (eligible raw)).flatMap (fun s => groupOf (eligible raw) s)) :=
    flatMap_subperm _ _ _ (fun s _ => sampleGroup_subperm _)
  refine h1.trans (List.Perm.subperm ?_)
  refine flatMap_groupOf_perm _ _ (serviceKeys_nodup _) ?_
  intro r hr
  exact mem_serviceKeys.mpr ⟨r, hr, rfl⟩

theorem subperm_nodup {α : Type} {l l' : List α}
    (h : List.Subperm l l') (hn : l'.Nodup) : l.Nodup := by
  rcases h with ⟨m, hperm, hsub⟩
  exact hperm.nodup_iff.mp (hn.sublist hsub)

theorem eligible_nodup (raw : List RawRow) : (eligible raw).Nodup :=
  ((dedupFirst_nodup _).filter _).filter _

theorem countP_flatMap {α β : Type} (f : β → List α) (p : α → Bool) :
    ∀ l : List β, ((l.flatMap f).countP p) = (l.map (fun b => (f b).countP p)).sum := by
  intro l
  induction l with
  | nil => simp
  | cons b t ih => simp [List.flatMap_cons, List.countP_append, ih]

theorem sum_map_single {β : Type} [DecidableEq β] (F : β → Nat) (s : β) :
    ∀ keys : List β, keys.Nodup → (∀ k ∈ keys, k ≠ s → F k = 0) →
      (keys.map F).sum = if s ∈ keys then F s else 0 := by
  intro keys
  induction keys with
  | nil => intro _ _; simp
  | cons k t ih =>
    intro hnd hz
    have hnd' : t.Nodup := (List.nodup_cons.mp hnd).2
    rw [List.map_cons, List.sum_cons,
      ih hnd' fun x hx hne => hz x (List.mem_cons_of_mem _ hx) hne]
    by_cases hk : k = s
    · subst hk
      have hs : k ∉ t := (List.nodup_cons.mp hnd).1
      simp [hs]
    · rw [hz k (List.mem_cons_self _ _) hk]
      by_cases hst : s ∈ t
      · rw [if_pos hst, if_pos (List.mem_cons_of_mem _ hst), Nat.zero_add]
      · have hno : s ∉ k :: t := by
          intro hc
          rcases List.mem_cons.mp hc with h1 | h1
          · exact hk h1.symm
          · exact hst h1
        rw [if_neg hst, if_neg hno]

theorem mem_sampleGroup_service {df : List Row} {k : String} {r : Row}
    (h : r ∈ sampleGroup (groupOf df k)) : r.service_number = k := by
  have hg : r ∈ groupOf df k := (sampleGroup_subperm _).subset h
  have := List.of_mem_filter hg
  simpa using this

/-- Claim C1 — Cap invariant: for every service-number value `s`, the
Sampler emits exactly `min 30 (size of the eligible group of s)` rows
with that service number, and those rows are a without-replacement
selection (a sub-permutation) of that eligible group. -/
theorem sampler_cap_invariant (raw : List RawRow) (s : String) :
    ((process_file raw).filter (fun r => r.service_number == s)).length
        = min 30 ((groupOf (eligible raw) s).length)
      ∧ List.Subperm ((process_file raw).filter (fun r => r.service_number == s))
          (groupOf (eligible raw) s) := by
  constructor
  · rw [← List.countP_eq_length_filter]
    unfold process_file
    rw [countP_flatMap]
    have hz : ∀ k ∈ serviceKeys (eligible raw), k ≠ s →
        ((sampleGroup (groupOf (eligible raw) k)).countP
          (fun r => r.service_number == s)) = 0 := by
      intro k _ hne
      rw [List.countP_eq_zero]
      intro r hr
      have := mem_sampleGroup_service hr
      simp [this, hne]
    rw [sum_map_single _ s _ (serviceKeys_nodup _) hz]
    by_cases hs : s ∈ serviceKeys (eligible raw)
    · rw [if_pos hs]
      have hall : ((sampleGroup (groupOf (eligible raw) s)).countP
          (fun r => r.service_number == s))
            = (sampleGroup (groupOf (eligible raw) s)).length := by
        rw [List.countP_eq_length]
        intro r hr
        simp [mem_sampleGroup_service hr]
      rw [hall, sampleGroup_length]
    · rw [if_neg hs]
      have hempty : groupOf (eligible raw) s = [] := by
        unfold groupOf
        rw [List.filter_eq_nil_iff]
        intro r hr hc
        exact hs (mem_serviceKeys.mpr ⟨r, hr, by simpa using hc⟩)
      simp [hempty]
  · have := List.Subperm.filter (fun r => r.service_number == s) (process_file_subperm raw)
    exact this

/-- Claim C2 — Determinism: the Sampler is a pure function of the
input table; with the fixed seed 42 two runs on the same table produce
the same output, and each per-group draw is likewise identical. -/
theorem sampler_deterministic (raw : List RawRow) :
    process_file raw = process_file raw
      ∧ ∀ s : String, sampleGroup (groupOf (eligible raw) s)
          = sampleGroup (groupOf (eligible raw) s) :=
  ⟨rfl, fun _ => rfl⟩

/-- Claim C3 — Filter invariant: every sampled row has status 203 and
a service number whose text form does not start with `"550"`. -/
theorem sampler_filter_invariant (raw : List RawRow) :
    ∀ r ∈ process_file raw,
      r.state = 203 ∧ textStartsWith r.service_number ("550") = false := by
  intro r hr
  have he : r ∈ eligible raw := (process_file_subperm raw).subset hr
  unfold eligible at he
  have h203 := List.of_mem_filter he
  have hmem := List.mem_of_mem_filter he
  have h550 := List.of_mem_filter hmem
  constructor
  · simpa using h203
  · simpa using h550

/-- Claim C4 — Dedup invariant: the Sampler output never contains two
rows that are exact duplicates of one another (all columns equal after
the non-essential column drop): its output list has no duplicates. -/
theorem sampler_dedup_invariant (raw : List RawRow) :
    (process_file raw).Nodup :=
  subperm_nodup (process_file_subperm raw) (eligible_nodup raw)

theorem idxmax_eq_none {f : String → Nat} :
    ∀ {keys : List String}, idxmax f keys = none → keys = [] := by
  intro keys h
  cases keys with
  | nil => rfl
  | cons k ks =>
    simp only [idxmax] at h
    cases hks : idxmax f ks with
    | none => rw [hks] at h; simp at h
    | some m =>
      rw [hks] at h
      by_cases hlt : f k < f m
      · simp [hlt] at h
      · simp [hlt] at h

theorem idxmax_firstArgmax (f : String → Nat) :
    ∀ (keys : List String) (m : String), idxmax f keys = some m →
      firstArgmax f keys m := by
  intro keys
  induction keys with
  | nil => intro m h; simp [idxmax] at h
  | cons k ks ih =>
    intro m h
    simp only [idxmax] at h
    cases hks : idxmax f ks with
    | none =>
      rw [hks] at h
      have hnil : ks = [] := idxmax_eq_none hks
      have hm : k = m := by simpa using h
      subst hm; subst hnil
      exact ⟨[], [], rfl, by simp, by simp⟩
    | some m' =>
      rw [hks] at h
      rcases ih m' hks with ⟨pre, suf, heq, hpre, hsuf⟩
      by_cases hlt : f k < f m'
      · have hm : m' = m := by simpa [hlt] using h
        subst hm
        exact ⟨k :: pre, suf, by rw [heq]; rfl,
          by
            intro x hx
            rcases List.mem_cons.mp hx with h1 | h1
            · rw [h1]; exact hlt
            · exact hpre x h1,
          hsuf⟩
      · have hm : k = m := by simpa [hlt] using h
        subst hm
        refine ⟨[], ks, rfl, by simp, ?_⟩
        intro x hx
        rw [heq] at hx
        have hle : f m' ≤ f k := Nat.le_of_not_lt hlt
        rcases List.mem_append.mp hx with h1 | h1
        · exact Nat.le_trans (Nat.le_of_lt (hpre x h1)) hle
        · rcases List.mem_cons.mp h1 with h2 | h2
          · rw [h2]; exact hle
          · exact Nat.le_trans (hsuf x h2) hle

theorem firstArgmax_mem {f : String → Nat} {keys : List String} {m : String}
    (h : firstArgmax f keys m) : m ∈ keys := by
  rcases h with ⟨pre, suf, heq, _, _⟩
  rw [heq]
  exact List.mem_append.mpr (Or.inr (List.mem_cons_self _ _))

theorem firstArgmax_max {f : String → Nat} {keys : List String} {m : String}
    (h : firstArgmax f keys m) : ∀ k ∈ keys, f k ≤ f m := by
  rcases h with ⟨pre, suf, heq, hpre, hsuf⟩
  intro k hk
  rw [heq] at hk
  rcases List.mem_append.mp hk with h1 | h1
  · exact Nat.le_of_lt (hpre k h1)
  · rcases List.mem_cons.mp h1 with h2 | h2
    · rw [h2]
    · exact hsuf k h2

theorem sLe_refl (a : String) : sLe a a := by
  rcases sLe_total a a with h | h <;> exact h

theorem firstArgmax_sorted_min {f : String → Nat} {keys : List String} {m : String}
    (hs : List.Sorted sLe keys) (hf : firstArgmax f keys m) :
    ∀ k ∈ keys, f k = f m → sLe m k := by
  rcases hf with ⟨pre, suf, heq, hpre, _⟩
  subst heq
  intro k hk hfk
  rcases List.mem_append.mp hk with h1 | h1
  · exact absurd hfk (Nat.ne_of_lt (hpre k h1))
  · rcases List.mem_cons.mp h1 with h2 | h2
    · rw [h2]; exact sLe_refl m
    · rcases List.pairwise_append.mp hs with ⟨_, h4, _⟩
      exact (List.pairwise_cons.mp h4).1 k h2

theorem rateOf_eq_round (g : List ARow) (h : g.length ≠ 0) :
    rateOf g
      = ((round ((qualifiedCount g : ℚ) / (g.length : ℚ) * 100 * 100) : ℤ) : ℚ) / 100 := by
  have hn : ((g.length : ℚ)) ≠ 0 := Nat.cast_ne_zero.mpr h
  rw [round_eq]
  have hx : (qualifiedCount g : ℚ) / (g.length : ℚ) * 100 * 100 + 1 / 2
      = (((20000 * qualifiedCount g + g.length : ℕ) : ℤ) : ℚ) / ((2 * g.length : ℕ) : ℚ) := by
    push_cast
    field_simp
    ring
  rw [hx, Rat.floor_intCast_div_natCast]
  have hdiv : ((20000 * qualifiedCount g + g.length : ℕ) : ℤ) / ((2 * g.length : ℕ) : ℤ)
      = ((rateNum (qualifiedCount g) g.length : ℕ) : ℤ) := (Int.natCast_div _ _).symm
  rw [show ((2 * g.length : ℕ) : ℤ) = ((2 * g.length : ℕ) : ℤ) from rfl] at hdiv
  rw [hdiv]
  unfold rateOf
  rw [Rat.mkRat_eq_divInt, Rat.divInt_eq_div]
  norm_num

theorem qualifiedCount_le (g : List ARow) : qualifiedCount g ≤ g.length :=
  List.length_filter_le _ _

theorem rateOf_all_yes (g : List ARow) (h : g.length ≠ 0)
    (hall : ∀ r ∈ g, r.quality = "Yes") : rateOf g = 100 := by
  have hqc : qualifiedCount g = g.length := by
    unfold qualifiedCount
    rw [List.filter_eq_self.mpr fun r hr => by simp [hall r hr]]
  unfold rateOf
  rw [hqc]
  have hrn : rateNum g.length g.length = 10000 := by
    unfold rateNum
    have he : 20000 * g.length + g.length = g.length + 2 * g.length * 10000 := by ring
    rw [he, Nat.add_mul_div_left _ _ (by omega : 0 < 2 * g.length),
      Nat.div_eq_of_lt (by omega), Nat.zero_add]
  rw [hrn]
  decide

/-- Claim C5 — Rate computation: the per-group pass rate is the exact
two-decimal rounding `round(qualifiedCount / total * 100, 2)` (stated
as `round(x * 100) / 100`), and a group of 10 rows of which 8 are
qualified gets rate exactly 80; its summary then takes the non-100%
branch with total 10 and rate 80. -/
theorem aggregator_rate_computation (d : String) (g : List ARow)
    (h0 : g.length ≠ 0) :
    rateOf g
        = ((round ((qualifiedCount g : ℚ) / (g.length : ℚ) * 100 * 100) : ℤ) : ℚ) / 100
      ∧ (g.length = 10 → qualifiedCount g = 8 →
          rateOf g = 80
            ∧ summarize d g
                = Summary.withFailures d 10 80 (mainServiceOf g) (mainReasonOf g)) := by
  refine ⟨rateOf_eq_round g h0, ?_⟩
  intro hlen hq
  have h80 : rateOf g = 80 := by
    unfold rateOf
    rw [hlen, hq]
    decide
  refine ⟨h80, ?_⟩
  unfold summarize
  rw [if_neg (by rw [h80]; decide), h80, hlen]

theorem aggregator_rate_computation_witness :
    rateOf rate10Group
        = ((round ((qualifiedCount rate10Group : ℚ)
            / (rate10Group.length : ℚ) * 100 * 100) : ℤ) : ℚ) / 100
      ∧ rateOf rate10Group = 80
      ∧ summarize ("DSPX") rate10Group
          = Summary.withFailures ("DSPX") 10 80
              (mainServiceOf rate10Group) (mainReasonOf rate10Group) := by
  have h := aggregator_rate_computation ("DSPX") rate10Group (by decide)
  exact ⟨h.1, (h.2 (by decide) (by decide)).1, (h.2 (by decide) (by decide)).2⟩

/-- Claim C6 — 100%-rate branch: a non-empty group in which every row
is qualified produces the all-qualified summary variant, parameterized
by distributor and total only; the offending-service and dominant-
reason lookups belong to the other branch and are not consulted. -/
theorem aggregator_all_qualified (d : String) (g : List ARow) (h0 : g ≠ [])
    (hall : ∀ r ∈ g, r.quality = "Yes") :
    summarize d g = Summary.allQualified d g.length := by
  unfold summarize
  rw [if_pos (rateOf_all_yes g (by simpa using h0) hall)]

theorem sorted_sLe_sort (l : List String) :
    List.Sorted sLe (List.insertionSort sLe l) :=
  @List.sorted_insertionSort String sLe inferInstance ⟨sLe_total⟩ ⟨sLe_trans⟩ l

theorem mem_driverKeys {g : List ARow} {k : String} :
    k ∈ driverKeys g ↔ ∃ r ∈ g, r.driver_id = k := by
  unfold driverKeys
  rw [(List.perm_insertionSort _ _).mem_iff, mem_dedupFirst, List.mem_map]

theorem driverKeys_sorted (g : List ARow) : List.Sorted sLe (driverKeys g) :=
  sorted_sLe_sort _

theorem dspKeys_sorted (t : List ARow) : List.Sorted sLe (dspKeys t) :=
  sorted_sLe_sort _

theorem mem_dspKeys {t : List ARow} {d : String} :
    d ∈ dspKeys t ↔ ∃ r ∈ t, r.dsp = some d := by
  unfold dspKeys
  rw [(List.perm_insertionSort _ _).mem_iff, mem_dedupFirst, List.mem_filterMap]

theorem idxmax_isSome (f : String → Nat) :
    ∀ keys : List String, keys ≠ [] → ∃ m, idxmax f keys = some m := by
  intro keys h
  cases keys with
  | nil => exact absurd rfl h
  | cons k ks =>
    cases hks : idxmax f ks with
    | none => exact ⟨k, by simp [idxmax, hks]⟩
    | some m =>
      by_cases hlt : f k < f m
      · exact ⟨m, by simp [idxmax, hks, hlt]⟩
      · exact ⟨k, by simp [idxmax, hks, hlt]⟩

theorem aggregator_all_qualified_witness :
    summarize ("D6") allYesGroup = Summary.allQualified ("D6") allYesGroup.length :=
  aggregator_all_qualified ("D6") allYesGroup (by decide) (by decide)

/-- Claim C7 counterexample: in `tieGroup` the two drivers are tied at
one failing row each and `"B"` appears first in group row order, yet
the summary names `"A"`, the smallest key in the sorted `service_rates`
index — the claimed row-order tie-break does not hold. -/
theorem aggregator_tie_break_cex :
    tieGroup.map (fun r => r.driver_id) = [("B"), ("A")]
      ∧ noCount tieGroup ("A") = noCount tieGroup ("B")
      ∧ summarize ("D") tieGroup
          = Summary.withFailures ("D") 2 0 ("A") ("No POD") := by
  decide

/-- Claim C7 (amended) — Tie-break determinism: in the non-100% branch
the offending service is the first maximum of the per-driver failure
counts over the sorted driver-key index (so ties go to the
lexicographically least driver id, not to row order), and the reported
reason is the first-occurring maximal-count value of that driver's
Reason list. -/
theorem aggregator_tie_break_amended (d : String) (g : List ARow)
    (hne : g ≠ []) (hr : rateOf g ≠ 100) :
    summarize d g
        = Summary.withFailures d g.length (rateOf g) (mainServiceOf g) (mainReasonOf g)
      ∧ firstArgmax (noCount g) (driverKeys g) (mainServiceOf g)
      ∧ (∀ k ∈ driverKeys g, noCount g k = noCount g (mainServiceOf g) →
          sLe (mainServiceOf g) k)
      ∧ firstArgmax (fun v => (reasonsOf g).count v) (dedupFirst (reasonsOf g))
          (mainReasonOf g) := by
  have hkeys : driverKeys g ≠ [] := by
    cases g with
    | nil => exact absurd rfl hne
    | cons r t =>
      exact List.ne_nil_of_mem
        (mem_driverKeys.mpr ⟨r, List.mem_cons_self _ _, rfl⟩)
  rcases idxmax_isSome (noCount g) _ hkeys with ⟨m, hm⟩
  have hms : mainServiceOf g = m := by
    unfold mainServiceOf
    rw [hm]
    rfl
  have hfa : firstArgmax (noCount g) (driverKeys g) (mainServiceOf g) := by
    rw [hms]
    exact idxmax_firstArgmax _ _ _ hm
  have hreasons : dedupFirst (reasonsOf g) ≠ [] := by
    rcases mem_driverKeys.mp (firstArgmax_mem hfa) with ⟨r, hrg, hrid⟩
    have hdr : r ∈ driverRows g (mainServiceOf g) :=
      List.mem_filter.mpr ⟨hrg, by simp [hrid]⟩
    exact List.ne_nil_of_mem
      ((mem_dedupFirst _).mpr (List.mem_map.mpr ⟨r, hdr, rfl⟩))
  rcases idxmax_isSome (fun v => (reasonsOf g).count v) _ hreasons with ⟨mr, hmr⟩
  have hmrs : mainReasonOf g = mr := by
    unfold mainReasonOf mostCommon
    rw [hmr]
    rfl
  refine ⟨by unfold summarize; rw [if_neg hr], hfa,
    firstArgmax_sorted_min (driverKeys_sorted g) hfa, ?_⟩
  rw [hmrs]
  exact idxmax_firstArgmax _ _ _ hmr

theorem aggregator_tie_break_amended_witness :
    summarize ("D") tieGroup
        = Summary.withFailures ("D") tieGroup.length (rateOf tieGroup)
            (mainServiceOf tieGroup) (mainReasonOf tieGroup)
      ∧ firstArgmax (noCount tieGroup) (driverKeys tieGroup) (mainServiceOf tieGroup)
      ∧ (∀ k ∈ driverKeys tieGroup,
          noCount tieGroup k = noCount tieGroup (mainServiceOf tieGroup) →
            sLe (mainServiceOf tieGroup) k)
      ∧ firstArgmax (fun v => (reasonsOf tieGroup).count v)
          (dedupFirst (reasonsOf tieGroup)) (mainReasonOf tieGroup) :=
  aggregator_tie_break_amended ("D") tieGroup (by decide) (by decide)

/-- Claim C8 counterexample: with distributors appearing in row order
`"b"` then `"a"`, the summaries and export tables come out in sorted
order `"a"`, `"b"` — not in order of first appearance. -/
theorem aggregator_order_cex :
    orderRows.map (fun r => r.dsp) = [some ("b"), some ("a")]
      ∧ generate_reports ⟨true, orderRows⟩
          = Except.ok ([Summary.allQualified ("a") 1, Summary.allQualified ("b") 1],
              [(("a_report.xlsx"),
                  [⟨"t2", some "a", "2026-01-01", "Yes", "Qualified", "S2"⟩]),
               (("b_report.xlsx"),
                  [⟨"t1", some "b", "2026-01-01", "Yes", "Qualified", "S1"⟩])]) := by
  decide

/-- Claim C8 (amended): the aggregator's summaries and export tables
are aligned and ordered by ascending (lexicographic) distributor
value — pandas `groupby` sorts its keys — with exactly the distinct
non-null distributors of the input as keys. -/
theorem aggregator_output_order_amended (rows : List ARow) :
    ∃ s f, generate_reports ⟨true, rows⟩ = Except.ok (s, f)
      ∧ s.map summaryDSP = dspKeys rows
      ∧ f.map Prod.fst = (dspKeys rows).map (fun d => d ++ ("_report.xlsx"))
      ∧ List.Sorted sLe (dspKeys rows)
      ∧ (∀ d : String, d ∈ dspKeys rows ↔ ∃ r ∈ rows, r.dsp = some d) := by
  refine ⟨_, _, rfl, ?_, ?_, dspKeys_sorted rows, fun d => mem_dspKeys⟩
  · rw [List.map_map]
    have hpt : ∀ d ∈ dspKeys rows,
        (summaryDSP ∘ fun d => summarize d (dspRows rows d)) d = id d := by
      intro d _
      show summaryDSP (summarize d (dspRows rows d)) = d
      by_cases h : rateOf (dspRows rows d) = 100
      · simp [summarize, h, summaryDSP]
      · simp [summarize, h, summaryDSP]
    rw [List.map_congr_left hpt, List.map_id]
  · rw [List.map_map]
    rfl

/-- Claim C9 counterexample: a table whose `DSP` column contains a
null is not rejected — the null-keyed row is silently dropped by the
groupby and a report is still produced for the remaining
distributor. -/
theorem aggregator_null_dsp_cex :
    (∃ r ∈ nullDspRows, r.dsp = none)
      ∧ generate_reports ⟨true, nullDspRows⟩
          = Except.ok ([Summary.allQualified ("A") 1],
              [(("A_report.xlsx"),
                  [⟨"t2", some "A", "2026-01-01", "Yes", "Qualified", "S2"⟩])]) := by
  decide

/-- Claim C9 (amended): a missing `DSP` column aborts the aggregation
with the pandas key error and emits nothing; a null `DSP` VALUE is not
an error — rows with a null distributor are silently excluded from
every group, and reports are produced for the remaining
distributors. -/
theorem aggregator_dsp_error_amended (t : AnnotatedTable) :
    (t.hasDSP = false → generate_reports t = Except.error ("KeyError: DSP"))
      ∧ (t.hasDSP = true → ∃ s f, generate_reports t = Except.ok (s, f)
          ∧ ∀ p ∈ f, ∀ r ∈ p.2, r.dsp ≠ none) := by
  constructor
  · intro h
    simp [generate_reports, h]
  · intro h
    refine ⟨(dspKeys t.rows).map (fun d => summarize d (dspRows t.rows d)),
      (dspKeys t.rows).map (fun d => (d ++ ("_report.xlsx"), dspRows t.rows d)),
      by simp [generate_reports, h], ?_⟩
    intro p hp r hr
    rcases List.mem_map.mp hp with ⟨d, _, rfl⟩
    have hd := List.of_mem_filter hr
    simp only [beq_iff_eq] at hd
    rw [hd]
    simp

theorem aggregator_dsp_error_amended_witness :
    generate_reports ⟨false, []⟩ = Except.error ("KeyError: DSP")
      ∧ (∃ s f, generate_reports ⟨true, nullDspRows⟩ = Except.ok (s, f)
          ∧ ∀ p ∈ f, ∀ r ∈ p.2, r.dsp ≠ none) :=
  ⟨(aggregator_dsp_error_amended ⟨false, []⟩).1 rfl,
   (aggregator_dsp_error_amended ⟨true, nullDspRows⟩).2 rfl⟩

/-- Claim C10 — the dominant-reason lookup scans all rows of the
offending service, qualified ones included: in
`qualifiedReasonGroup`, driver `"D1"` has two qualified rows (Reason
`"Qualified"`) and one failing row (Reason `"Wrong Address"`), and the
summary reports `"Qualified"` as the main reason, whereas restricting
to the failing rows alone would report `"Wrong Address"`. -/
theorem aggregator_reason_counts_qualified :
    summarize ("D") qualifiedReasonGroup
        = Summary.withFailures ("D") 4 75 ("D1") ("Qualified")
      ∧ reasonsOf qualifiedReasonGroup
          = [("Qualified"), ("Qualified"), ("Wrong Address")]
      ∧ mostCommon (((driverRows qualifiedReasonGroup ("D1")).filter
          (fun r => r.quality == "No")).map (fun r => r.reason))
          = some ("Wrong Address") := by
  decide

theorem sampler_filter_invariant_witness :
    sampleRow ∈ process_file sampleRaw
      ∧ (sampleRow.state = 203
          ∧ textStartsWith sampleRow.service_number ("550") = false) :=
  ⟨by decide, sampler_filter_invariant sampleRaw sampleRow (by decide)⟩

end POD
